import Mathlib

/-!
Shallow embedding of `graphql-upload-nextjs` (source of authority:
`src/src/index.ts`) and proofs about the claims of its specification.

Modelling conventions:
* JavaScript values flowing through the upload pipeline are modelled by the
  inductive `JVal` (undefined, null, booleans, numbers, strings, containers,
  and `Upload` cells).  A JS object and a JS array are both containers: both
  are `typeof 'object'`, both are truthy, and property get/set works the same
  way on either (array indices are string property keys in JS); the boolean
  tag records `Array.isArray`.
* File sizes are JS numbers or non-numbers; we model the `size` field as
  `Option Int` (`none` stands for a value whose `typeof` is not `'number'`).
* External collaborators (the JSON parser, the `file-type` byte-signature
  sniffer, the `istextorbinary` text heuristic, the settlement order chosen
  by the event loop, and the GraphQL engine) are parameters of the model.
* Byte buffers are `List Nat`; streams are lists of chunks.
* The orchestrator `uploadProcess` is modelled as a pure function that also
  returns the ordered list of observable events (grafts, per-key
  classification settlements, engine invocation) of one realizable schedule,
  determined by the settlement-order parameter.
-/

namespace GQLUpload

/-- Byte-signature sniffer interface (the `file-type` package): returns the
sniffed MIME type when a confident byte-signature match exists. -/
abbrev Sniffer := List Nat → Option String

/-- Text heuristic interface (the `istextorbinary` package): `.error ()`
models a thrown exception, `.ok r` a returned value (`some true`,
`some false`, or `none` for a JS `null` result). -/
abbrev TextHeuristic := String → List Nat → Except Unit (Option Bool)

/-- A chunk yielded by async-iterating a Node.js readable stream: a `Buffer`,
a string, or any other array-like of bytes. -/
inductive StreamChunk where
  | bufChunk (bytes : List Nat)
  | strChunk (s : String)
  | otherChunk (bytes : List Nat)
deriving DecidableEq, Repr

/-- Bytes contributed by one chunk in `streamToBuffer`: buffers are kept,
strings are UTF-8 encoded by `Buffer.from`, other chunks are converted. -/
def chunkToBuffer : StreamChunk → List Nat
  | .bufChunk b => b
  | .strChunk s => s.toUTF8.toList.map (fun b => b.toNat)
  | .otherChunk b => b

/-- Model of `streamToBuffer` (src/src/index.ts:66-78): collects every chunk,
converting non-buffer chunks, and concatenates. -/
def streamToBuffer (stream : List StreamChunk) : List Nat :=
  (stream.map chunkToBuffer).flatten

/-- Model of `bufferToStream` (src/src/index.ts:80-86): pushes the whole
buffer as a single chunk followed by end-of-stream.  Pushing a zero-length
buffer into a non-object-mode `Readable` adds nothing to its internal queue,
so the resulting stream yields no chunks in that case. -/
def bufferToStream (buffer : List Nat) : List StreamChunk :=
  if buffer.isEmpty then [] else [.bufChunk buffer]

/-- The resolved-file record (interface `File`, src/src/index.ts:7-13).  The
`createReadStream` closure captures the buffered bytes, which we store as
`content`; invoking it is `bufferToStream content`. -/
structure File where
  encoding : String
  fileName : String
  fileSize : Option Int
  mimeType : String
  content : List Nat
deriving DecidableEq, Repr

/-- State of the promise held by an `Upload` cell.  JS promises settle at
most once: the executor's `resolve`/`reject` are no-ops on a settled
promise. -/
inductive PromiseState where
  | pending
  | fulfilled (f : File)
  | rejected (reason : String)
deriving DecidableEq, Repr

/-- The `Upload` class (src/src/index.ts:30-46): a `file` field plus a
promise.  `file` is written by every `resolve` call; the promise settles at
most once. -/
structure Upload where
  file : Option File
  state : PromiseState
deriving DecidableEq, Repr

/-- A freshly constructed `Upload`: no file yet, promise pending. -/
def Upload.init : Upload := { file := none, state := .pending }

/-- The `resolve` closure installed by the constructor: it assigns
`this.file = file` unconditionally and then calls the promise's `resolve`,
which only takes effect while the promise is still pending. -/
def Upload.resolveCell (c : Upload) (f : File) : Upload :=
  { file := some f
    state := match c.state with
      | .pending => .fulfilled f
      | s => s }

/-- The `reject` closure: the promise's `reject`, effective only while the
promise is still pending; the `file` field is untouched. -/
def Upload.rejectCell (c : Upload) (reason : String) : Upload :=
  { c with
    state := match c.state with
      | .pending => .rejected reason
      | s => s }

mutual
/-- A JavaScript value as seen by the upload pipeline. -/
inductive JVal where
  | jundefined
  | jnull
  | jbool (b : Bool)
  | jnum (n : Int)
  | jstr (s : String)
  | jcontainer (isArr : Bool) (fields : JFields)
  | jupload (u : Upload)
deriving DecidableEq, Repr

/-- Ordered own-property list of a container (JS objects preserve insertion
order; JSON.parse never produces duplicate keys). -/
inductive JFields where
  | nil
  | cons (key : String) (value : JVal) (rest : JFields)
deriving DecidableEq, Repr
end

/-- Property lookup in a field list (first match). -/
def JFields.get? : JFields → String → Option JVal
  | .nil, _ => none
  | .cons k v rest, key => if k = key then some v else rest.get? key

/-- Property assignment in a field list: overwrite in place when the key
exists, append otherwise (JS insertion-order semantics). -/
def JFields.set : JFields → String → JVal → JFields
  | .nil, key, v => .cons key v .nil
  | .cons k w rest, key, v =>
      if k = key then .cons k v rest else .cons k w (rest.set key v)

/-- Keys of a field list, in order. -/
def JFields.keys : JFields → List String
  | .nil => []
  | .cons k _ rest => k :: rest.keys

/-- Values of a field list, in order. -/
def JFields.values : JFields → List JVal
  | .nil => []
  | .cons _ v rest => v :: rest.values

/-- Property read `v[key]`: `undefined` when absent or when `v` is not a
container (the pipeline never reads a property of `null`/`undefined`). -/
def getField (v : JVal) (key : String) : JVal :=
  match v with
  | .jcontainer _ fs => (fs.get? key).getD .jundefined
  | _ => .jundefined

/-- Property write `v[key] = x`: mutates containers; silently ignored on
primitives (non-strict JS). -/
def setField (v : JVal) (key : String) (x : JVal) : JVal :=
  match v with
  | .jcontainer a fs => .jcontainer a (fs.set key x)
  | other => other

/-- JS truthiness of a modelled value (containers and Upload instances are
always truthy, even when empty). -/
def truthy : JVal → Bool
  | .jundefined => false
  | .jnull => false
  | .jbool b => b
  | .jnum n => n != 0
  | .jstr s => s ≠ ""
  | .jcontainer _ _ => true
  | .jupload _ => true

/-- JS `typeof` of a modelled value (`typeof null` is `'object'`). -/
def jsTypeof : JVal → String
  | .jundefined => "undefined"
  | .jnull => "object"
  | .jbool _ => "boolean"
  | .jnum _ => "number"
  | .jstr _ => "string"
  | .jcontainer _ _ => "object"
  | .jupload _ => "object"

/-- The regex test `/^\d+$/` used on the next path segment. -/
def isDigits (s : String) : Bool :=
  !s.toList.isEmpty && s.toList.all Char.isDigit

/-- Accumulating pass of `jsSplitDot` over the path's characters. -/
def splitDotGo : List Char → String → List String
  | [], acc => [acc]
  | c :: cs, acc => if c = '.' then acc :: splitDotGo cs "" else splitDotGo cs (acc.push c)

/-- JS `path.split('.')`: splits on every dot, keeping empty segments (the
split of the empty string is `[""]`). -/
def jsSplitDot (s : String) : List String :=
  splitDotGo s.toList ""

/-- Model of `sanitizeAndValidateJSON` (src/src/index.ts:88-98).  Its input
is the outcome of the external `JSON.parse` call (`.error` = a parse
exception).  The parsed value is rejected when `typeof result !== 'object'`
or `result === null`; both failure paths re-throw through the same catch,
prefixing the message. -/
def sanitizeAndValidateJSON (parsed : Except String JVal) : Except String JVal :=
  match parsed with
  | .error m => .error ("Invalid JSON input: " ++ m)
  | .ok result =>
      if jsTypeof result ≠ "object" ∨ result = .jnull then
        .error ("Invalid JSON input: " ++ "Invalid JSON structure: not an object.")
      else
        .ok result

/-- Core loop of `setValueAtPath` (src/src/index.ts:100-116) over the split
segment list.  The source walks the document mutating it in place; on the
tree-shaped documents of this model that is equivalent to rebuilding along
the path, which is what this function does.  The source's replacement test is
`!current[key] || typeof current[key] !== (nextKeyIsArrayIndex ? 'object' :
'object')` — both ternary branches are the string `'object'` — and the inner
`if` detecting a container-kind conflict has an empty body (a comment only),
so a truthy value of type `'object'` is never replaced, whatever its kind. -/
def setPathGo : List String → JVal → JVal → JVal
  | [], cur, _ => cur
  | [k], cur, v => setField cur k v
  | k :: k2 :: rest, cur, v =>
      let nextKeyIsArrayIndex := isDigits k2
      let slot := getField cur k
      let slot' :=
        if !truthy slot || jsTypeof slot ≠ "object" then
          JVal.jcontainer nextKeyIsArrayIndex .nil
        else slot
      setField cur k (setPathGo (k2 :: rest) slot' v)

/-- Model of `setValueAtPath`: split the path on `'.'` and graft. -/
def setValueAtPath (obj : JVal) (path : String) (value : JVal) : JVal :=
  setPathGo (jsSplitDot path) obj value

/-- A form-data file part (interface `FormDataFile`, src/src/index.ts:19-24)
together with its byte content (what `file.stream()` piped through
`streamToBuffer` yields).  `size` is `none` when the field's `typeof` is not
`'number'`; JS numbers are modelled by their integer value. -/
structure FormDataFile where
  lastModified : Int
  name : String
  size : Option Int
  type : String
  content : List Nat
deriving DecidableEq, Repr

/-- Structured identity of the errors thrown by `processUpload`; the source
distinguishes them only by their message text, produced by
`UploadErr.message`. -/
inductive UploadErr where
  | invalidFile
  | disallowedType (mime : String) (allowed : List String)
deriving DecidableEq, Repr

/-- The message of the corresponding `Error` thrown in the source. -/
def UploadErr.message : UploadErr → String
  | .invalidFile => "Invalid file properties: name, size, or type is missing or invalid."
  | .disallowedType m allowed =>
      "File type " ++ m ++ " is not allowed. Allowed types: " ++ String.intercalate ", " allowed

/-- MIME-type resolution of `processUpload` (src/src/index.ts:132-144): a
byte-signature sniff match overrides the declared type; otherwise a text
heuristic returning exactly `true` switches to `text/plain`; any other
outcome of the heuristic (false, null, or a thrown exception) keeps the
client-declared type. -/
def resolveMimeType (declaredType : String) (name : String) (buffer : List Nat)
    (sniff : Sniffer) (istext : TextHeuristic) : String :=
  match sniff buffer with
  | some m => m
  | none =>
      match istext name buffer with
      | .ok (some true) => "text/plain"
      | _ => declaredType

/-- Model of `processUpload` (src/src/index.ts:118-159).  The property
validation is `!file.name || typeof file.size !== 'number' || !file.type`.
On success the source creates a fresh `Upload` and resolves it at once with
the `File` record (whose `createReadStream` replays the buffered content). -/
def processUpload (file : FormDataFile) (allowedTypes : List String)
    (sniff : Sniffer) (istext : TextHeuristic) : Except UploadErr Upload :=
  if file.name = "" ∨ file.size = none ∨ file.type = "" then
    .error .invalidFile
  else
    let buffer := file.content
    let mimeType := resolveMimeType file.type file.name buffer sniff istext
    if allowedTypes.contains mimeType then
      .ok (Upload.init.resolveCell
        { fileSize := file.size
          fileName := file.name
          mimeType := mimeType
          encoding := "binary"
          content := buffer })
    else
      .error (.disallowedType mimeType allowedTypes)

/-- Settings argument of `uploadProcess`. -/
structure Settings where
  allowedTypes : List String
  maxFileSize : Int
deriving DecidableEq, Repr

/-- The structured identity of the request-level failures `uploadProcess`
converts into a 500 response: the missing-field throw, a
`sanitizeAndValidateJSON` throw, or a `TypeError` raised by iterating a
malformed `map` entry. -/
inductive RunErr where
  | missingMapOrOperations
  | invalidJSONInput (msg : String)
  | typeErr
deriving DecidableEq, Repr

/-- Wire response of `uploadProcess`, by identity: `err500` is the
`{errors:[{message}]}` body with status 500; `oversized` is the
`{errors:[{message: File NAME size is too large. Maximum allowed size is
(maxFileSize/2^20)MB.}]}` body with status 413, mentioning the maximum
allowed size; `engineResult` records that `server.executeOperation` was
invoked, with the query and variables it received. -/
inductive UploadResponse where
  | err500 (e : RunErr)
  | oversized (fileName : String) (maxFileSize : Int)
  | engineResult (query : JVal) (vars : JVal)
deriving DecidableEq, Repr

/-- HTTP status of a response (`engineResult` responses are forwarded engine
bodies, 200 for the shapes the engine contract produces). -/
def statusOf : UploadResponse → Nat
  | .err500 _ => 500
  | .oversized _ _ => 413
  | .engineResult _ _ => 200

/-- Observable events of one run, in execution order. -/
inductive Event where
  | graftNull (key path : String)
  | classDone (key : String) (failed : Bool)
  | graftUpload (key path : String) (cell : Upload)
  | engineExec
deriving DecidableEq, Repr

/-- The string prefix of a JS array's elements that
`forEach(path => ...path.split...)` would process before hitting a
non-string (calling `.split` on which throws a `TypeError`); the boolean
records whether such a throw occurs. -/
def stringPrefix : List JVal → List String × Bool
  | [] => ([], false)
  | .jstr s :: rest => (s :: (stringPrefix rest).1, (stringPrefix rest).2)
  | _ :: _ => ([], true)

/-- Paths traversed by `map[key].forEach(...)`: a non-array value has no
`forEach` (throws immediately); an array yields its string prefix. -/
def pathsAndThrow (v : JVal) : List String × Bool :=
  match v with
  | .jcontainer true fs => stringPrefix fs.values
  | _ => ([], true)

/-- The paths of a map entry (the part `forEach` reaches). -/
def pathsOf (m : JVal) (key : String) : List String :=
  (pathsAndThrow (getField m key)).1

/-- `Object.keys(map)` for the parsed map value. -/
def keysOf (m : JVal) : List String :=
  match m with
  | .jcontainer _ fs => fs.keys
  | _ => []

/-- Lookup of `files[key]` in the extracted file parts. -/
def lookupFile (files : List (String × FormDataFile)) (key : String) : Option FormDataFile :=
  (files.find? (fun kv => kv.1 = key)).map (fun kv => kv.2)

/-- The comparison `file.size > settings.maxFileSize`: a non-number size
compares false. -/
def sizeGT (size : Option Int) (max : Int) : Bool :=
  match size with
  | some s => max < s
  | none => false

/-- Outcome of the synchronous key loop: either the list of launched per-key
tasks (key, file, `map[key]` value), or an early return. -/
inductive SyncOutcome where
  | proceed (tasks : List (String × FormDataFile × JVal))
  | shortCircuit (resp : UploadResponse)
deriving Repr

/-- The synchronous `for (const fileKeyInMap of Object.keys(map))` loop
(src/src/index.ts:199-230): a missing file grafts `null` along the entry's
paths (a malformed entry throws, reaching the outer catch); an oversized
file returns the 413 response at once; otherwise `processUpload` is
launched and its settlement deferred.  Returns the events emitted, the
mutated operations document, and the outcome. -/
def syncPhase (files : List (String × FormDataFile)) (map0 : JVal) (settings : Settings) :
    List String → JVal → List Event × JVal × SyncOutcome
  | [], ops => ([], ops, .proceed [])
  | k :: ks, ops =>
      match lookupFile files k with
      | none =>
          let paths := (pathsAndThrow (getField map0 k)).1
          let evs := paths.map (Event.graftNull k)
          let ops1 := paths.foldl (fun o p => setValueAtPath o p .jnull) ops
          if (pathsAndThrow (getField map0 k)).2 then
            (evs, ops1, .shortCircuit (.err500 .typeErr))
          else
            let rest := syncPhase files map0 settings ks ops1
            (evs ++ rest.1, rest.2.1, rest.2.2)
      | some f =>
          if sizeGT f.size settings.maxFileSize then
            ([], ops, .shortCircuit (.oversized f.name settings.maxFileSize))
          else
            let rest := syncPhase files map0 settings ks ops
            match rest.2.2 with
            | .proceed ts => (rest.1, rest.2.1, .proceed ((k, f, getField map0 k) :: ts))
            | sc => (rest.1, rest.2.1, sc)

/-- The rejection message wrapped around a per-file failure,
`Failed to process file NAME: MESSAGE`. -/
def failMsg (name msg : String) : String :=
  "Failed to process file " ++ name ++ ": " ++ msg

/-- The settlement of one per-key task: the continuation attached to
`processUpload(file, ...)` (src/src/index.ts:214-227).  On fulfilment the
`.then` callback grafts the already-resolved `Upload` into every path; on
rejection the `.catch` callback grafts a fresh rejected `Upload` per path
and re-throws (so the task's promise rejects).  A `TypeError` thrown while
iterating a malformed entry propagates into `.catch`, which grafts rejected
cells over the same prefix and throws again.  Returns the events of the
settlement block, the mutated document, and whether the task's promise
rejected. -/
def runBlock (allowed : List String) (sniff : Sniffer) (istext : TextHeuristic)
    (ops : JVal) (t : String × FormDataFile × JVal) : List Event × JVal × Bool :=
  let paths := (pathsAndThrow t.2.2).1
  match processUpload t.2.1 allowed sniff istext with
  | .ok upl =>
      let evs := Event.classDone t.1 false :: paths.map (fun p => Event.graftUpload t.1 p upl)
      let ops1 := paths.foldl (fun o p => setValueAtPath o p (.jupload upl)) ops
      if (pathsAndThrow t.2.2).2 then
        let cell := Upload.init.rejectCell (failMsg t.2.1.name "TypeError")
        let evs2 := paths.map (fun p => Event.graftUpload t.1 p cell)
        let ops2 := paths.foldl (fun o p => setValueAtPath o p (.jupload cell)) ops1
        (evs ++ evs2, ops2, true)
      else
        (evs, ops1, false)
  | .error e =>
      let cell := Upload.init.rejectCell (failMsg t.2.1.name e.message)
      let evs := Event.classDone t.1 true :: paths.map (fun p => Event.graftUpload t.1 p cell)
      let ops1 := paths.foldl (fun o p => setValueAtPath o p (.jupload cell)) ops
      (evs, ops1, true)

/-- One realizable event-loop schedule: tasks settle in the order given by
the scheduler's `order` list (restricted to launched tasks; tasks the order
omits settle last, in launch order). -/
def scheduleOf (tasks : List (String × FormDataFile × JVal)) (order : List String) :
    List (String × FormDataFile × JVal) :=
  let okeys := order.eraseDups
  okeys.filterMap (fun k => tasks.find? (fun t => t.1 = k))
    ++ tasks.filter (fun t => !okeys.contains t.1)

/-- Settlement phase: tasks settle one by one in schedule order.  The
orchestrator executes `try { await Promise.all(tasks) } catch {}` and then
invokes the engine, so the `await` resumes — and `executeOperation` runs —
as soon as either every task has settled or the first task rejects
(`Promise.all` rejects on the first rejection; the catch swallows it);
remaining tasks settle after the engine has started.  Returns the events
(including the `engineExec` event at its position), the final document, and
the document snapshot passed to the engine. -/
def settlePhase (allowed : List String) (sniff : Sniffer) (istext : TextHeuristic) :
    List (String × FormDataFile × JVal) → JVal → Bool → List Event × JVal × Option JVal
  | [], ops, fired =>
      if fired then ([], ops, none) else ([Event.engineExec], ops, some ops)
  | t :: ts, ops, fired =>
      let blk := runBlock allowed sniff istext ops t
      if blk.2.2 && !fired then
        let rest := settlePhase allowed sniff istext ts blk.2.1 true
        (blk.1 ++ Event.engineExec :: rest.1, rest.2.1, some blk.2.1)
      else
        let rest := settlePhase allowed sniff istext ts blk.2.1 fired
        (blk.1 ++ rest.1, rest.2.1, rest.2.2)

/-- Result of one modelled run of `uploadProcess`: the observable events in
order, the wire response, and the operations document after every task has
settled. -/
structure RunResult where
  events : List Event
  response : UploadResponse
  finalOps : JVal
deriving DecidableEq, Repr

/-- Model of `uploadProcess` (src/src/index.ts:169-261).  Parameters:
extracted file parts, the raw `map` and `operations` form fields (`none` =
absent), the external `JSON.parse` (`jsonParse`), the two classification
collaborators, the settings, and the settlement order of one realizable
schedule.  The engine call is recorded as the `engineResult` response
carrying `operations.query` and `operations.variables` as passed. -/
def uploadProcess (files : List (String × FormDataFile))
    (mapField opsField : Option String)
    (jsonParse : String → Except String JVal)
    (sniff : Sniffer) (istext : TextHeuristic)
    (settings : Settings) (order : List String) : RunResult :=
  let mapString := mapField.getD ""
  let operationsString := opsField.getD ""
  if mapString = "" ∨ operationsString = "" then
    { events := [], response := .err500 .missingMapOrOperations, finalOps := .jundefined }
  else
    match sanitizeAndValidateJSON (jsonParse mapString) with
    | .error m => { events := [], response := .err500 (.invalidJSONInput m), finalOps := .jundefined }
    | .ok map0 =>
        match sanitizeAndValidateJSON (jsonParse operationsString) with
        | .error m => { events := [], response := .err500 (.invalidJSONInput m), finalOps := .jundefined }
        | .ok ops0 =>
            let ops1 :=
              if truthy (getField ops0 "variables") then ops0
              else setField ops0 "variables" (.jcontainer false .nil)
            let sp := syncPhase files map0 settings (keysOf map0) ops1
            match sp.2.2 with
            | .shortCircuit resp => { events := sp.1, response := resp, finalOps := sp.2.1 }
            | .proceed tasks =>
                let st := settlePhase settings.allowedTypes sniff istext (scheduleOf tasks order) sp.2.1 false
                let engOps := st.2.2.getD st.2.1
                { events := sp.1 ++ st.1
                  response := .engineResult (getField engOps "query") (getField engOps "variables")
                  finalOps := st.2.1 }

/-! Definitions written from the specification's words (for comparison with
the source embedding) and auxiliary predicates used by the theorems. -/

/-- Modelled from the spec: the grafting rule exactly as the claim states
it — when the next segment is all-digit and the slot is absent or not an
array, replace it with a new empty array; when the next segment is not
all-digit and the slot is absent or not an object, replace it with a new
empty object. -/
def setPathGoClaim : List String → JVal → JVal → JVal
  | [], cur, _ => cur
  | [k], cur, v => setField cur k v
  | k :: k2 :: rest, cur, v =>
      let slot := getField cur k
      let slot' :=
        if isDigits k2 then
          match slot with
          | .jcontainer true _ => slot
          | _ => JVal.jcontainer true .nil
        else
          match slot with
          | .jcontainer false _ => slot
          | _ => JVal.jcontainer false .nil
      setField cur k (setPathGoClaim (k2 :: rest) slot' v)

/-- Modelled from the spec: `graft` as the claim describes it. -/
def setValueAtPathClaim (obj : JVal) (path : String) (value : JVal) : JVal :=
  setPathGoClaim (jsSplitDot path) obj value

/-- A value that the source's replacement test keeps in place: truthy and of
`typeof 'object'`, that is, any container or `Upload` instance, regardless
of container kind. -/
def isObjectLike : JVal → Bool
  | .jcontainer _ _ => true
  | .jupload _ => true
  | _ => false

/-- The amended grafting rule: an intermediate slot is replaced (by an empty
array when the next segment is all-digit, an empty object otherwise) exactly
when it does not already hold an object-typed truthy value; an existing
container of the wrong kind is kept and descended into. -/
def setPathGoAmended : List String → JVal → JVal → JVal
  | [], cur, _ => cur
  | [k], cur, v => setField cur k v
  | k :: k2 :: rest, cur, v =>
      let slot := getField cur k
      let slot' :=
        if isObjectLike slot then slot else JVal.jcontainer (isDigits k2) .nil
      setField cur k (setPathGoAmended (k2 :: rest) slot' v)

/-- The amended grafter. -/
def setValueAtPathAmended (obj : JVal) (path : String) (value : JVal) : JVal :=
  setPathGoAmended (jsSplitDot path) obj value

/-- Event `a` occurs strictly before event `b` in the trace. -/
def precedes : List Event → Event → Event → Bool
  | [], _, _ => false
  | x :: rest, a, b => (x == a && rest.contains b) || precedes rest a b

/-- Keys whose classification has settled, accumulated over a trace. -/
def seenAfter : List Event → List String → List String
  | [], seen => seen
  | .classDone k _ :: rest, seen => seenAfter rest (k :: seen)
  | _ :: rest, seen => seenAfter rest seen

/-- Checks that every upload graft in the trace names a key whose
classification already settled earlier in the trace, and grafts an
already-settled cell. -/
def graftsAfterClass : List Event → List String → Bool
  | [], _ => true
  | .classDone k _ :: rest, seen => graftsAfterClass rest (k :: seen)
  | .graftUpload k _ c :: rest, seen =>
      seen.contains k && c.state != PromiseState.pending && graftsAfterClass rest seen
  | _ :: rest, seen => graftsAfterClass rest seen

/-- A response that reports the malformed-request condition (the
missing-field throw or a `sanitizeAndValidateJSON` throw). -/
def isMalformedResp : UploadResponse → Bool
  | .err500 .missingMapOrOperations => true
  | .err500 (.invalidJSONInput _) => true
  | _ => false

/-- Modelled from the spec: a `map`/`operations` field content that the
claim says must be rejected — it fails to parse, or parses to `null` or to
a value whose `typeof` is not `'object'`. -/
def badJSONField (p : Except String JVal) : Prop :=
  match p with
  | .error _ => True
  | .ok v => jsTypeof v ≠ "object" ∨ v = .jnull

instance (p : Except String JVal) : Decidable (badJSONField p) := by
  unfold badJSONField
  cases p with
  | error m => exact inferInstanceAs (Decidable True)
  | ok v => exact inferInstanceAs (Decidable (_ ∨ _))

/-- The map value is well formed: every entry is an array of path strings
(iterating it never throws). -/
def WellFormedMap (m : JVal) : Prop :=
  ∀ k ∈ keysOf m, (pathsAndThrow (getField m k)).2 = false

instance (m : JVal) : Decidable (WellFormedMap m) := by
  unfold WellFormedMap
  exact List.decidableBAll _ _

/-! Concrete fixtures used by counterexamples and witnesses. -/

/-- A sniffer with no byte-signature match. -/
def snfNone : Sniffer := fun _ => none

/-- A text heuristic that throws. -/
def istThrow : TextHeuristic := fun _ _ => .error ()

/-- A text heuristic that returns `true`. -/
def istTrue : TextHeuristic := fun _ _ => .ok (some true)

/-- A small valid text file part. -/
def fKeyA : FormDataFile :=
  { lastModified := 0, name := "a.txt", size := some 3, type := "text/plain", content := [104, 105, 10] }

/-- A second valid file part. -/
def fKeyB : FormDataFile :=
  { lastModified := 0, name := "b.txt", size := some 4, type := "text/plain", content := [104, 105, 33, 10] }

/-- A file part whose property validation fails (empty name). -/
def fNoName : FormDataFile :=
  { lastModified := 0, name := "", size := some 3, type := "text/plain", content := [104, 105, 10] }

/-- A file part with a negative declared size. -/
def fNegSize : FormDataFile :=
  { lastModified := 0, name := "neg.bin", size := some (-1), type := "application/x-thing", content := [] }

/-- A resolved-file record fixture. -/
def fileRecA : File :=
  { encoding := "binary", fileName := "a.txt", fileSize := some 3, mimeType := "text/plain", content := [104, 105, 10] }

/-- A second, different resolved-file record fixture. -/
def fileRecB : File :=
  { encoding := "binary", fileName := "b.txt", fileSize := some 4, mimeType := "text/plain", content := [104, 105, 33, 10] }

/-- Parse oracle for single-key fixtures: the form field text "MAP" parses
to `{a: ["variables.a"]}` and "OPS" to `{query: "q", variables: {a: null}}`. -/
def parseOne : String → Except String JVal := fun s =>
  if s = "MAP" then
    .ok (.jcontainer false (.cons "a" (.jcontainer true (.cons "0" (.jstr "variables.a") .nil)) .nil))
  else if s = "OPS" then
    .ok (.jcontainer false (.cons "query" (.jstr "q")
      (.cons "variables" (.jcontainer false (.cons "a" .jnull .nil)) .nil)))
  else .error "Unexpected token"

/-- The parsed two-key map value `{a: ["variables.a"], b: ["variables.b"]}`. -/
def mapTwoVal : JVal :=
  .jcontainer false
    (.cons "a" (.jcontainer true (.cons "0" (.jstr "variables.a") .nil))
    (.cons "b" (.jcontainer true (.cons "0" (.jstr "variables.b") .nil)) .nil))

/-- The parsed operations value `{query: "q", variables: {a: null, b: null}}`. -/
def opsTwoVal : JVal :=
  .jcontainer false (.cons "query" (.jstr "q")
    (.cons "variables" (.jcontainer false (.cons "a" .jnull (.cons "b" .jnull .nil))) .nil))

/-- Parse oracle for two-key fixtures: "MAP" parses to `mapTwoVal`, "OPS" to
`opsTwoVal`. -/
def parseTwo : String → Except String JVal := fun s =>
  if s = "MAP" then .ok mapTwoVal
  else if s = "OPS" then .ok opsTwoVal
  else .error "Unexpected token"

/-- Parse oracle whose "ARR" field text parses to the empty JSON array. -/
def parseArr : String → Except String JVal := fun s =>
  if s = "ARR" then .ok (.jcontainer true .nil)
  else if s = "OPS" then .ok (.jcontainer false (.cons "query" (.jstr "q") .nil))
  else .error "Unexpected token"

/-- The document `{a: {x: 1}}` whose slot `a` holds an object. -/
def docObjSlot : JVal :=
  .jcontainer false (.cons "a" (.jcontainer false (.cons "x" (.jnum 1) .nil)) .nil)

/-- The map entry at `k` names a present file part that is strictly larger
than `maxFileSize`. -/
def oversizedAt (files : List (String × FormDataFile)) (settings : Settings) (k : String) : Bool :=
  match lookupFile files k with
  | some f => sizeGT f.size settings.maxFileSize
  | none => false

/-- Settings fixture allowing `text/plain` with a generous size limit. -/
def settingsTP : Settings := { allowedTypes := ["text/plain"], maxFileSize := 100 }

/-- Settings fixture with a 3-byte size limit. -/
def settingsTiny : Settings := { allowedTypes := ["text/plain"], maxFileSize := 3 }

/-- A complete single-file run: one mapped key `a` with a valid present
file, declared-type classification, everything succeeding. -/
def runSingleOk : RunResult :=
  uploadProcess [("a", fKeyA)] (some "MAP") (some "OPS") parseOne snfNone istThrow settingsTP ["a"]

/-- A complete two-file run in which key `a`'s file fails property
validation (empty name) and settles first, while key `b`'s valid file
settles second. -/
def runPartialFailure : RunResult :=
  uploadProcess [("a", fNoName), ("b", fKeyB)] (some "MAP") (some "OPS") parseTwo snfNone istThrow
    settingsTP ["a", "b"]

/-! Theorems. -/

/-- Helper: the source's replacement condition on an intermediate slot
(falsy, or `typeof` differing from `'object'`) is the negation of
`isObjectLike`. -/
theorem replace_cond_eq_not_isObjectLike (s : JVal) :
    (!truthy s || decide (jsTypeof s ≠ "object")) = !isObjectLike s := by
  cases s <;> simp [truthy, jsTypeof, isObjectLike]

/-- Helper: the source grafter agrees with the amended grafting rule on
every document, segment list and value. -/
theorem setPathGo_eq_amended (keys : List String) :
    ∀ (cur v : JVal), setPathGo keys cur v = setPathGoAmended keys cur v := by
  induction keys with
  | nil => intro cur v; rfl
  | cons k ks ih =>
      intro cur v
      cases ks with
      | nil => rfl
      | cons k2 rest =>
          show setField cur k
              (setPathGo (k2 :: rest) (if !truthy (getField cur k) || decide (jsTypeof (getField cur k) ≠ "object")
                  then JVal.jcontainer (isDigits k2) .nil else getField cur k) v)
            = setField cur k
              (setPathGoAmended (k2 :: rest) (if isObjectLike (getField cur k) then getField cur k
                  else JVal.jcontainer (isDigits k2) .nil) v)
          rw [ih, replace_cond_eq_not_isObjectLike]
          cases h : isObjectLike (getField cur k) <;> simp

/-- C10.  Feeding the stream produced by `bufferToStream` into
`streamToBuffer` returns exactly the original byte content: the composition
is the identity on buffers. -/
theorem streamToBuffer_bufferToStream_roundtrip (b : List Nat) :
    streamToBuffer (bufferToStream b) = b := by
  by_cases h : b.isEmpty
  · have hb : b = [] := List.isEmpty_iff.mp h
    subst hb; rfl
  · simp [bufferToStream, h, streamToBuffer, chunkToBuffer]

/-- C3 counterexample.  On the document `{a: {x: 1}}` with path `a.0.c` the
next segment `0` is all-digit and the slot `a` is not an array, yet the
source keeps the object and assigns the string property `0` inside it,
whereas the claim's rule replaces the slot with a new empty array: the two
results differ. -/
theorem setValueAtPath_keeps_object_cex :
    setValueAtPath docObjSlot "a.0.c" (JVal.jstr "v")
      = JVal.jcontainer false (.cons "a" (JVal.jcontainer false (.cons "x" (.jnum 1)
          (.cons "0" (JVal.jcontainer false (.cons "c" (.jstr "v") .nil)) .nil))) .nil)
    ∧ setValueAtPathClaim docObjSlot "a.0.c" (JVal.jstr "v")
      = JVal.jcontainer false (.cons "a" (JVal.jcontainer true
          (.cons "0" (JVal.jcontainer false (.cons "c" (.jstr "v") .nil)) .nil)) .nil)
    ∧ setValueAtPath docObjSlot "a.0.c" (JVal.jstr "v")
        ≠ setValueAtPathClaim docObjSlot "a.0.c" (JVal.jstr "v") := by
  refine ⟨rfl, rfl, ?_⟩
  decide

/-- C3 amended.  `setValueAtPath` splits the path on `.`; for each segment
except the last, the slot is replaced — by a new empty array when the next
segment is all-digit, by a new empty object otherwise — exactly when it does
not already hold an object-typed truthy value; an existing container of the
wrong kind is kept and descended into.  The final segment is assigned
unconditionally.  The claim's example `graft({}, "a.b.0.c", "x")` does
produce `{a: {b: [{c: "x"}]}}`. -/
theorem setValueAtPath_amended_characterization :
    (∀ (obj : JVal) (path : String) (value : JVal),
      setValueAtPath obj path value = setValueAtPathAmended obj path value)
    ∧ setValueAtPath (JVal.jcontainer false .nil) "a.b.0.c" (JVal.jstr "x")
      = JVal.jcontainer false (.cons "a" (JVal.jcontainer false (.cons "b"
          (JVal.jcontainer true (.cons "0" (JVal.jcontainer false
            (.cons "c" (.jstr "x") .nil)) .nil)) .nil)) .nil) := by
  constructor
  · intro obj path value
    exact setPathGo_eq_amended (jsSplitDot path) obj value
  · rfl

/-- C5 counterexample.  A file whose declared size is the negative number
`-1` (not a non-negative number) nevertheless passes the property
validation: with an allow-listed declared type, `processUpload` resolves
successfully instead of failing with the invalid-file error, because the
source only checks `typeof file.size !== 'number'`. -/
theorem negative_size_passes_validation_cex :
    processUpload fNegSize ["application/x-thing"] snfNone istThrow
      = .ok (Upload.init.resolveCell
          { encoding := "binary", fileName := "neg.bin", fileSize := some (-1)
            mimeType := "application/x-thing", content := [] })
    ∧ processUpload fNegSize ["application/x-thing"] snfNone istThrow ≠ .error .invalidFile
    ∧ (-1 : Int) < 0 := by
  have hok : processUpload fNegSize ["application/x-thing"] snfNone istThrow
      = .ok (Upload.init.resolveCell
          { encoding := "binary", fileName := "neg.bin", fileSize := some (-1)
            mimeType := "application/x-thing", content := [] }) := rfl
  refine ⟨hok, ?_, by decide⟩
  rw [hok]
  intro hcontra
  exact Except.noConfusion hcontra

/-- C5 amended.  `processUpload` fails with the invalid-file error exactly
when the file's name is empty, its declared type is empty, or its size is
not a number at all (`typeof file.size !== 'number'`); any numeric size,
negative included, passes this validation step. -/
theorem processUpload_invalidFile_iff (f : FormDataFile) (allowed : List String)
    (sniff : Sniffer) (istext : TextHeuristic) :
    processUpload f allowed sniff istext = .error .invalidFile
      ↔ (f.name = "" ∨ f.size = none ∨ f.type = "") := by
  constructor
  · intro hcontra
    by_contra hno
    unfold processUpload at hcontra
    rw [if_neg hno] at hcontra
    dsimp only at hcontra
    split at hcontra
    · exact Except.noConfusion hcontra
    · exact UploadErr.noConfusion (Except.error.inj hcontra)
  · intro h
    unfold processUpload
    rw [if_pos h]

/-- C9 counterexample.  Calling `resolve` a second time on an already
resolved `Upload` leaves the promise's settled outcome at the first file but
overwrites the stored `file` field with the second file — the observable
state is not unchanged, contradicting first-writer-wins for the `file`
field. -/
theorem upload_file_field_overwritten_cex :
    ((Upload.init.resolveCell fileRecA).resolveCell fileRecB).file = some fileRecB
    ∧ some fileRecB ≠ some fileRecA
    ∧ ((Upload.init.resolveCell fileRecA).resolveCell fileRecB).state
        = PromiseState.fulfilled fileRecA := by
  refine ⟨rfl, ?_, rfl⟩
  decide

/-- C9 amended.  After an `Upload` cell has settled, subsequent `resolve` or
`reject` calls leave the promise's settled outcome unchanged
(first-writer-wins), but every `resolve` call — even on a settled cell —
reassigns the stored `file` field to its argument, while `reject` never
touches that field. -/
theorem upload_settle_once_amended (c : Upload) (f : File) (r : String)
    (h : c.state ≠ .pending) :
    (c.resolveCell f).state = c.state
    ∧ (c.rejectCell r).state = c.state
    ∧ (c.resolveCell f).file = some f
    ∧ (c.rejectCell r).file = c.file := by
  cases hc : c.state with
  | pending => exact absurd hc h
  | fulfilled g => simp [Upload.resolveCell, Upload.rejectCell, hc]
  | rejected m => simp [Upload.resolveCell, Upload.rejectCell, hc]

/-- C9 amended, witness at a concrete settled cell. -/
theorem upload_settle_once_amended_witness :
    ((Upload.init.resolveCell fileRecA).resolveCell fileRecB).state
        = (Upload.init.resolveCell fileRecA).state
    ∧ ((Upload.init.resolveCell fileRecA).rejectCell "late").state
        = (Upload.init.resolveCell fileRecA).state
    ∧ ((Upload.init.resolveCell fileRecA).resolveCell fileRecB).file = some fileRecB
    ∧ ((Upload.init.resolveCell fileRecA).rejectCell "late").file
        = (Upload.init.resolveCell fileRecA).file :=
  upload_settle_once_amended (Upload.init.resolveCell fileRecA) fileRecB "late" (by decide)

/-- C6.  For a file passing property validation, the authoritative MIME type
is resolved in the claimed order — a byte-signature sniff match overrides the
declared type; with no sniff match, a text classification sets `text/plain`;
otherwise the declared type is kept — and `processUpload` rejects with the
disallowed-type error exactly when the resulting type is not allow-listed,
and otherwise resolves to a `File` record carrying that type. -/
theorem classification_order_and_allowlist (f : FormDataFile) (allowed : List String)
    (sniff : Sniffer) (istext : TextHeuristic)
    (hname : f.name ≠ "") (hsize : f.size ≠ none) (htype : f.type ≠ "") :
    ∃ m,
      (∀ s, sniff f.content = some s → m = s)
      ∧ (sniff f.content = none → istext f.name f.content = .ok (some true) → m = "text/plain")
      ∧ (sniff f.content = none → istext f.name f.content ≠ .ok (some true) → m = f.type)
      ∧ processUpload f allowed sniff istext =
          (if allowed.contains m then
            .ok (Upload.init.resolveCell
              { encoding := "binary", fileName := f.name, fileSize := f.size
                mimeType := m, content := f.content })
          else .error (.disallowedType m allowed)) := by
  have hno : ¬ (f.name = "" ∨ f.size = none ∨ f.type = "") := by
    push_neg
    exact ⟨hname, hsize, htype⟩
  refine ⟨resolveMimeType f.type f.name f.content sniff istext, ?_, ?_, ?_, ?_⟩
  · intro s hs
    simp [resolveMimeType, hs]
  · intro hn ht
    simp [resolveMimeType, hn, ht]
  · intro hn ht
    unfold resolveMimeType
    rw [hn]
    rcases hr : istext f.name f.content with u | ob
    · rfl
    · match ob with
      | none => rfl
      | some false => rfl
      | some true => exact absurd hr ht
  · unfold processUpload
    rw [if_neg hno]

/-- C6 witness: a concrete valid text file with no signature match and a
positive text classification, against an allow-list containing
`text/plain`. -/
theorem classification_order_and_allowlist_witness :
    ∃ m,
      (∀ s, snfNone fKeyA.content = some s → m = s)
      ∧ (snfNone fKeyA.content = none → istTrue fKeyA.name fKeyA.content = .ok (some true) → m = "text/plain")
      ∧ (snfNone fKeyA.content = none → istTrue fKeyA.name fKeyA.content ≠ .ok (some true) → m = fKeyA.type)
      ∧ processUpload fKeyA ["text/plain"] snfNone istTrue =
          (if List.contains ["text/plain"] m then
            .ok (Upload.init.resolveCell
              { encoding := "binary", fileName := fKeyA.name, fileSize := fKeyA.size
                mimeType := m, content := fKeyA.content })
          else .error (.disallowedType m ["text/plain"])) :=
  classification_order_and_allowlist fKeyA ["text/plain"] snfNone istTrue
    (by decide) (by decide) (by decide)

/-- Helper: a field content the amended claim rejects is exactly one on
which `sanitizeAndValidateJSON` throws. -/
theorem sanitize_error_of_bad (p : Except String JVal) (h : badJSONField p) :
    ∃ m, sanitizeAndValidateJSON p = .error m := by
  cases p with
  | error m => exact ⟨"Invalid JSON input: " ++ m, rfl⟩
  | ok v =>
      refine ⟨"Invalid JSON input: " ++ "Invalid JSON structure: not an object.", ?_⟩
      show (if jsTypeof v ≠ "object" ∨ v = JVal.jnull then
          Except.error ("Invalid JSON input: " ++ "Invalid JSON structure: not an object.")
        else Except.ok v) = _
      rw [if_pos (show jsTypeof v ≠ "object" ∨ v = JVal.jnull from h)]

/-- Helper: a good field content passes `sanitizeAndValidateJSON`
unchanged. -/
theorem sanitize_ok_of_good (p : Except String JVal) (h : ¬ badJSONField p) :
    ∃ v, p = .ok v ∧ sanitizeAndValidateJSON p = .ok v := by
  cases p with
  | error m => exact absurd trivial h
  | ok v =>
      refine ⟨v, rfl, ?_⟩
      show (if jsTypeof v ≠ "object" ∨ v = JVal.jnull then
          Except.error ("Invalid JSON input: " ++ "Invalid JSON structure: not an object.")
        else Except.ok v) = _
      rw [if_neg (show ¬ (jsTypeof v ≠ "object" ∨ v = JVal.jnull) from h)]

/-- Helper: the synchronous key loop never short-circuits with a
malformed-request response (its early exits are the 413 oversized response
and the `TypeError` 500). -/
theorem syncPhase_not_malformed (files : List (String × FormDataFile)) (map0 : JVal)
    (settings : Settings) :
    ∀ (keys : List String) (ops : JVal) (resp : UploadResponse),
      (syncPhase files map0 settings keys ops).2.2 = .shortCircuit resp →
      isMalformedResp resp = false := by
  intro keys
  induction keys with
  | nil =>
      intro ops resp h
      exact absurd h (by simp [syncPhase])
  | cons k ks ih =>
      intro ops resp h
      simp only [syncPhase] at h
      rcases hlk : lookupFile files k with _ | f
      · rw [hlk] at h
        dsimp only at h
        by_cases ht : (pathsAndThrow (getField map0 k)).2
        · rw [if_pos ht] at h
          cases h
          rfl
        · rw [if_neg ht] at h
          exact ih _ resp h
      · rw [hlk] at h
        dsimp only at h
        by_cases hsz : sizeGT f.size settings.maxFileSize
        · rw [if_pos hsz] at h
          cases h
          rfl
        · rw [if_neg hsz] at h
          rcases hout : (syncPhase files map0 settings ks ops).2.2 with ts | sc
          · rw [hout] at h
            cases h
          · rw [hout] at h
            cases h
            exact ih _ resp hout

/-- Helper: the synchronous key loop emits only null-graft events. -/
theorem syncPhase_events_graftNull (files : List (String × FormDataFile)) (map0 : JVal)
    (settings : Settings) :
    ∀ (keys : List String) (ops : JVal),
      ∀ e ∈ (syncPhase files map0 settings keys ops).1, ∃ k p, e = Event.graftNull k p := by
  intro keys
  induction keys with
  | nil =>
      intro ops e he
      simp [syncPhase] at he
  | cons k ks ih =>
      intro ops e he
      simp only [syncPhase] at he
      rcases hlk : lookupFile files k with _ | f
      · rw [hlk] at he
        dsimp only at he
        by_cases ht : (pathsAndThrow (getField map0 k)).2
        · rw [if_pos ht] at he
          dsimp only at he
          rcases List.mem_map.mp he with ⟨p, _, hp⟩
          exact ⟨k, p, hp.symm⟩
        · rw [if_neg ht] at he
          dsimp only at he
          rcases List.mem_append.mp he with hl | hr
          · rcases List.mem_map.mp hl with ⟨p, _, hp⟩
            exact ⟨k, p, hp.symm⟩
          · exact ih _ e hr
      · rw [hlk] at he
        dsimp only at he
        by_cases hsz : sizeGT f.size settings.maxFileSize
        · rw [if_pos hsz] at he
          simp at he
        · rw [if_neg hsz] at he
          rcases hout : (syncPhase files map0 settings ks ops).2.2 with ts | sc
          · rw [hout] at he
            exact ih _ e he
          · rw [hout] at he
            exact ih _ e he

/-- C4 counterexample.  A request whose `map` field parses to a JSON array
(the empty array) is not rejected: `uploadProcess` proceeds and invokes the
engine, because `typeof [] === 'object'` passes the validation — arrays are
accepted, contrary to the claim. -/
theorem array_map_accepted_cex :
    parseArr "ARR" = .ok (JVal.jcontainer true .nil)
    ∧ (uploadProcess [] (some "ARR") (some "OPS") parseArr snfNone istThrow
        ⟨[], 100⟩ []).response
        = .engineResult (JVal.jstr "q") (JVal.jcontainer false .nil)
    ∧ isMalformedResp (uploadProcess [] (some "ARR") (some "OPS") parseArr snfNone istThrow
        ⟨[], 100⟩ []).response = false
    ∧ Event.engineExec ∈ (uploadProcess [] (some "ARR") (some "OPS") parseArr snfNone istThrow
        ⟨[], 100⟩ []).events := by
  refine ⟨rfl, rfl, rfl, ?_⟩
  decide

/-- C4 amended.  `uploadProcess` fails with a malformed-request error —
without invoking the engine — if and only if the `map` or `operations` form
field is absent or empty, fails to parse as JSON, or parses to `null` or to
a value whose `typeof` is not `'object'`; JSON arrays, being
object-typed, are accepted. -/
theorem malformed_request_iff (files : List (String × FormDataFile))
    (mapField opsField : Option String) (jsonParse : String → Except String JVal)
    (sniff : Sniffer) (istext : TextHeuristic) (settings : Settings) (order : List String) :
    (isMalformedResp (uploadProcess files mapField opsField jsonParse sniff istext settings order).response = true
      ∧ Event.engineExec ∉ (uploadProcess files mapField opsField jsonParse sniff istext settings order).events)
    ↔ (mapField.getD "" = "" ∨ opsField.getD "" = ""
        ∨ badJSONField (jsonParse (mapField.getD ""))
        ∨ badJSONField (jsonParse (opsField.getD ""))) := by
  by_cases hmiss : mapField.getD "" = "" ∨ opsField.getD "" = ""
  · constructor
    · intro _
      rcases hmiss with h | h
      · exact Or.inl h
      · exact Or.inr (Or.inl h)
    · intro _
      unfold uploadProcess
      rw [if_pos hmiss]
      exact ⟨rfl, by simp⟩
  · by_cases hbm : badJSONField (jsonParse (mapField.getD ""))
    · constructor
      · intro _
        exact Or.inr (Or.inr (Or.inl hbm))
      · intro _
        obtain ⟨m, hm⟩ := sanitize_error_of_bad _ hbm
        unfold uploadProcess
        rw [if_neg hmiss, hm]
        exact ⟨rfl, by simp⟩
    · obtain ⟨map0, _, hmok⟩ := sanitize_ok_of_good _ hbm
      by_cases hbo : badJSONField (jsonParse (opsField.getD ""))
      · constructor
        · intro _
          exact Or.inr (Or.inr (Or.inr hbo))
        · intro _
          obtain ⟨m, hm⟩ := sanitize_error_of_bad _ hbo
          unfold uploadProcess
          rw [if_neg hmiss, hmok, hm]
          exact ⟨rfl, by simp⟩
      · obtain ⟨ops0, _, hook⟩ := sanitize_ok_of_good _ hbo
        constructor
        · intro ⟨hmal, _⟩
          exfalso
          unfold uploadProcess at hmal
          rw [if_neg hmiss, hmok, hook] at hmal
          dsimp only at hmal
          rcases hout : (syncPhase files map0 settings (keysOf map0)
              (if truthy (getField ops0 "variables") then ops0
               else setField ops0 "variables" (.jcontainer false .nil))).2.2 with ts | resp
          · rw [hout] at hmal
            dsimp only at hmal
            exact Bool.noConfusion hmal
          · rw [hout] at hmal
            dsimp only at hmal
            rw [syncPhase_not_malformed files map0 settings _ _ resp hout] at hmal
            exact Bool.noConfusion hmal
        · intro hconds
          rcases hconds with h | h | h | h
          · exact absurd (Or.inl h) hmiss
          · exact absurd (Or.inr h) hmiss
          · exact absurd h hbm
          · exact absurd h hbo

/-- Helper: `graftsAfterClass` distributes over trace concatenation. -/
theorem graftsAfterClass_append (l1 : List Event) :
    ∀ (l2 : List Event) (seen : List String),
      graftsAfterClass (l1 ++ l2) seen
        = (graftsAfterClass l1 seen && graftsAfterClass l2 (seenAfter l1 seen)) := by
  induction l1 with
  | nil => intro l2 seen; simp [graftsAfterClass, seenAfter]
  | cons e rest ih =>
      intro l2 seen
      cases e <;> simp [graftsAfterClass, seenAfter, ih, Bool.and_assoc]

/-- Helper: `seenAfter` composes over trace concatenation. -/
theorem seenAfter_append (l1 : List Event) :
    ∀ (l2 : List Event) (seen : List String),
      seenAfter (l1 ++ l2) seen = seenAfter l2 (seenAfter l1 seen) := by
  induction l1 with
  | nil => intro l2 seen; rfl
  | cons e rest ih =>
      intro l2 seen
      cases e with
      | graftNull k p => simp [seenAfter, ih]
      | classDone k b => simp [seenAfter, ih]
      | graftUpload k p c => simp [seenAfter, ih]
      | engineExec => simp [seenAfter, ih]

/-- Helper: a trace of null grafts passes the checker and settles no
classification. -/
theorem graftsAfterClass_of_allNull (evs : List Event)
    (h : ∀ e ∈ evs, ∃ k p, e = Event.graftNull k p) :
    ∀ seen, graftsAfterClass evs seen = true ∧ seenAfter evs seen = seen := by
  induction evs with
  | nil => intro seen; exact ⟨rfl, rfl⟩
  | cons e rest ih =>
      intro seen
      obtain ⟨k, p, hk⟩ := h e (List.mem_cons_self e rest)
      subst hk
      have hr := ih (fun e' he' => h e' (List.mem_cons_of_mem _ he')) seen
      exact ⟨hr.1, hr.2⟩

/-- Helper: a block of upload grafts for an already-settled key with a
settled cell passes the checker. -/
theorem graftsAfterClass_of_grafts (k : String) (cell : Upload) (seen : List String)
    (hk : seen.contains k = true) (hc : (cell.state != PromiseState.pending) = true) :
    ∀ paths : List String,
      graftsAfterClass (paths.map (fun p => Event.graftUpload k p cell)) seen = true
      ∧ seenAfter (paths.map (fun p => Event.graftUpload k p cell)) seen = seen := by
  intro paths
  induction paths with
  | nil => exact ⟨rfl, rfl⟩
  | cons p ps ih =>
      refine ⟨?_, ih.2⟩
      simp only [List.map_cons, graftsAfterClass, hk, hc, ih.1]
      rfl

/-- Helper: an `Upload` returned by a successful `processUpload` is already
settled. -/
theorem processUpload_ok_settled (f : FormDataFile) (allowed : List String)
    (sniff : Sniffer) (istext : TextHeuristic) (u : Upload)
    (h : processUpload f allowed sniff istext = .ok u) :
    (u.state != PromiseState.pending) = true := by
  unfold processUpload at h
  split at h
  · exact Except.noConfusion h
  · dsimp only at h
    split at h
    · cases Except.ok.inj h
      rfl
    · exact Except.noConfusion h

/-- Helper: one settlement block emits its classification event before its
grafts, grafts only settled cells, and marks exactly its own key as
settled. -/
theorem runBlock_checker (allowed : List String) (sniff : Sniffer) (istext : TextHeuristic)
    (ops : JVal) (t : String × FormDataFile × JVal) :
    ∀ seen, graftsAfterClass (runBlock allowed sniff istext ops t).1 seen = true
      ∧ seenAfter (runBlock allowed sniff istext ops t).1 seen = t.1 :: seen := by
  intro seen
  unfold runBlock
  rcases hpu : processUpload t.2.1 allowed sniff istext with e | upl
  · dsimp only
    have hcell : ((Upload.init.rejectCell (failMsg t.2.1.name e.message)).state
        != PromiseState.pending) = true := rfl
    have hg := graftsAfterClass_of_grafts t.1 _ (t.1 :: seen) (by simp) hcell
      (pathsAndThrow t.2.2).1
    exact ⟨by simp only [graftsAfterClass, hg.1], by simp only [seenAfter, hg.2]⟩
  · dsimp only
    have hset := processUpload_ok_settled t.2.1 allowed sniff istext upl hpu
    have hg := graftsAfterClass_of_grafts t.1 upl (t.1 :: seen) (by simp) hset
      (pathsAndThrow t.2.2).1
    by_cases ht : (pathsAndThrow t.2.2).2
    · rw [if_pos ht]
      have hcell : ((Upload.init.rejectCell (failMsg t.2.1.name "TypeError")).state
          != PromiseState.pending) = true := rfl
      have hg2 := graftsAfterClass_of_grafts t.1 _ (t.1 :: seen) (by simp) hcell
        (pathsAndThrow t.2.2).1
      constructor
      · rw [List.cons_append]
        show graftsAfterClass (_ ++ _) (t.1 :: seen) = true
        rw [graftsAfterClass_append, hg.1, hg.2, hg2.1]
        rfl
      · rw [List.cons_append]
        show seenAfter (_ ++ _) (t.1 :: seen) = t.1 :: seen
        rw [seenAfter_append, hg.2, hg2.2]
    · rw [if_neg ht]
      exact ⟨by simp only [graftsAfterClass, hg.1], by simp only [seenAfter, hg.2]⟩

/-- Helper: the whole settlement phase passes the checker, from any set of
already-settled keys. -/
theorem settlePhase_checker (allowed : List String) (sniff : Sniffer) (istext : TextHeuristic) :
    ∀ (ts : List (String × FormDataFile × JVal)) (ops : JVal) (fired : Bool) (seen : List String),
      graftsAfterClass (settlePhase allowed sniff istext ts ops fired).1 seen = true := by
  intro ts
  induction ts with
  | nil =>
      intro ops fired seen
      cases fired <;> rfl
  | cons t ts' ih =>
      intro ops fired seen
      show graftsAfterClass (settlePhase allowed sniff istext (t :: ts') ops fired).1 seen = true
      unfold settlePhase
      have hblk := runBlock_checker allowed sniff istext ops t seen
      by_cases hf : ((runBlock allowed sniff istext ops t).2.2 && !fired) = true
      · rw [if_pos hf]
        dsimp only
        rw [graftsAfterClass_append, hblk.1, hblk.2]
        show graftsAfterClass (Event.engineExec :: _) _ = _
        show graftsAfterClass (settlePhase allowed sniff istext ts' _ true).1 _ = _
        rw [ih]
      · rw [if_neg hf]
        dsimp only
        rw [graftsAfterClass_append, hblk.1, hblk.2, ih]
        rfl

/-- C1 counterexample.  In a complete successful single-file run the only
graft for the mapped key occurs strictly after that key's classification has
settled — no placeholder is grafted before classification completes, and
the grafted cell is created already resolved. -/
theorem graft_before_classification_cex :
    Event.classDone "a" false ∈ runSingleOk.events
    ∧ Event.graftUpload "a" "variables.a" (Upload.init.resolveCell fileRecA) ∈ runSingleOk.events
    ∧ precedes runSingleOk.events
        (Event.graftUpload "a" "variables.a" (Upload.init.resolveCell fileRecA))
        (Event.classDone "a" false) = false
    ∧ precedes runSingleOk.events
        (Event.classDone "a" false)
        (Event.graftUpload "a" "variables.a" (Upload.init.resolveCell fileRecA)) = true := by
  refine ⟨?_, ?_, ?_, ?_⟩ <;> decide

/-- C1 amended.  In every run of `uploadProcess`, for every map key in the
Normal state, the `Upload` cell is created only at the settlement of that
key's classification — resolved inside `processUpload` on success, or
created fresh and rejected in the catch handler on failure — and is then
grafted into the key's variable paths: every upload-graft event is preceded
by that key's classification-settled event, and the grafted cell is already
settled (never a pending placeholder). -/
theorem grafts_only_after_classification (files : List (String × FormDataFile))
    (mapField opsField : Option String) (jsonParse : String → Except String JVal)
    (sniff : Sniffer) (istext : TextHeuristic) (settings : Settings) (order : List String) :
    graftsAfterClass
      (uploadProcess files mapField opsField jsonParse sniff istext settings order).events
      [] = true := by
  unfold uploadProcess
  by_cases hmiss : mapField.getD "" = "" ∨ opsField.getD "" = ""
  · rw [if_pos hmiss]
    rfl
  · rw [if_neg hmiss]
    rcases hm : sanitizeAndValidateJSON (jsonParse (mapField.getD "")) with m | map0
    · rfl
    · dsimp only
      rcases ho : sanitizeAndValidateJSON (jsonParse (opsField.getD "")) with m | ops0
      · rfl
      · dsimp only
        have hsyncnull := syncPhase_events_graftNull files map0 settings (keysOf map0)
          (if truthy (getField ops0 "variables") then ops0
           else setField ops0 "variables" (.jcontainer false .nil))
        have hsync := graftsAfterClass_of_allNull _ hsyncnull []
        rcases hout : (syncPhase files map0 settings (keysOf map0)
            (if truthy (getField ops0 "variables") then ops0
             else setField ops0 "variables" (.jcontainer false .nil))).2.2 with ts | resp
        · dsimp only
          rw [graftsAfterClass_append, hsync.1, hsync.2, settlePhase_checker]
          rfl
        · dsimp only
          exact hsync.1

/-- C2 evidence.  A realizable schedule of the two-file fixture: key `a`'s
classification rejects first (its file has an empty name) while key `b`'s
task is still in flight; `Promise.all` rejects at once, the catch swallows
the error, and the engine executes *before* key `b`'s task settles and
before `b`'s path is grafted — contradicting the claimed barrier. -/
theorem engine_runs_before_sibling_settles :
    Event.classDone "a" true ∈ runPartialFailure.events
    ∧ Event.classDone "b" false ∈ runPartialFailure.events
    ∧ Event.engineExec ∈ runPartialFailure.events
    ∧ precedes runPartialFailure.events (Event.classDone "a" true) Event.engineExec = true
    ∧ precedes runPartialFailure.events Event.engineExec (Event.classDone "b" false) = true
    ∧ precedes runPartialFailure.events Event.engineExec
        (Event.graftUpload "b" "variables.b" (Upload.init.resolveCell fileRecB)) = true := by
  refine ⟨?_, ?_, ?_, ?_, ?_, ?_⟩ <;> decide

/-- Helper: a trace of null grafts contains no engine invocation. -/
theorem noEngine_of_allNull (evs : List Event)
    (h : ∀ e ∈ evs, ∃ k p, e = Event.graftNull k p) :
    Event.engineExec ∉ evs := by
  intro he
  obtain ⟨k, p, hk⟩ := h _ he
  exact Event.noConfusion hk

/-- Helper: when every map entry iterates cleanly and some mapped key names
a present oversized file, the synchronous loop short-circuits with the 413
oversized outcome carrying the configured limit. -/
theorem syncPhase_oversized (files : List (String × FormDataFile)) (map0 : JVal)
    (settings : Settings) :
    ∀ (keys : List String) (ops : JVal),
      (∀ k ∈ keys, (pathsAndThrow (getField map0 k)).2 = false) →
      (∃ k ∈ keys, oversizedAt files settings k = true) →
      ∃ name, (syncPhase files map0 settings keys ops).2.2
        = .shortCircuit (.oversized name settings.maxFileSize) := by
  intro keys
  induction keys with
  | nil =>
      intro ops _ hover
      obtain ⟨k, hk, _⟩ := hover
      exact absurd hk (List.not_mem_nil k)
  | cons k ks ih =>
      intro ops hwf hover
      show ∃ name, (syncPhase files map0 settings (k :: ks) ops).2.2 = _
      unfold syncPhase
      rcases hlk : lookupFile files k with _ | f
      · dsimp only
        rw [if_neg (by rw [hwf k (List.mem_cons_self k ks)]; exact Bool.false_ne_true)]
        dsimp only
        refine ih _ (fun k' hk' => hwf k' (List.mem_cons_of_mem _ hk')) ?_
        obtain ⟨k0, hk0, hov0⟩ := hover
        rcases List.mem_cons.mp hk0 with hk0e | hk0m
        · subst hk0e
          rw [oversizedAt, hlk] at hov0
          exact absurd hov0 Bool.false_ne_true
        · exact ⟨k0, hk0m, hov0⟩
      · dsimp only
        by_cases hsz : sizeGT f.size settings.maxFileSize
        · rw [if_pos hsz]
          exact ⟨f.name, rfl⟩
        · rw [if_neg hsz]
          have hrest : ∃ k0 ∈ ks, oversizedAt files settings k0 = true := by
            obtain ⟨k0, hk0, hov0⟩ := hover
            rcases List.mem_cons.mp hk0 with hk0e | hk0m
            · subst hk0e
              rw [oversizedAt, hlk] at hov0
              exact absurd hov0 hsz
            · exact ⟨k0, hk0m, hov0⟩
          obtain ⟨name, hname⟩ := ih ops (fun k' hk' => hwf k' (List.mem_cons_of_mem _ hk')) hrest
          refine ⟨name, ?_⟩
          rcases hout : (syncPhase files map0 settings ks ops).2.2 with ts | sc
          · rw [hout] at hname
            exact SyncOutcome.noConfusion hname
          · rw [hout] at hname
            dsimp only
            exact hname

/-- Helper: when every map entry iterates cleanly and no mapped key names an
oversized file, the synchronous loop completes with launched tasks. -/
theorem syncPhase_proceeds (files : List (String × FormDataFile)) (map0 : JVal)
    (settings : Settings) :
    ∀ (keys : List String) (ops : JVal),
      (∀ k ∈ keys, (pathsAndThrow (getField map0 k)).2 = false) →
      (∀ k ∈ keys, oversizedAt files settings k = false) →
      ∃ ts, (syncPhase files map0 settings keys ops).2.2 = .proceed ts := by
  intro keys
  induction keys with
  | nil => intro ops _ _; exact ⟨[], rfl⟩
  | cons k ks ih =>
      intro ops hwf hnov
      show ∃ ts, (syncPhase files map0 settings (k :: ks) ops).2.2 = _
      unfold syncPhase
      rcases hlk : lookupFile files k with _ | f
      · dsimp only
        rw [if_neg (by rw [hwf k (List.mem_cons_self k ks)]; exact Bool.false_ne_true)]
        dsimp only
        exact ih _ (fun k' hk' => hwf k' (List.mem_cons_of_mem _ hk'))
          (fun k' hk' => hnov k' (List.mem_cons_of_mem _ hk'))
      · dsimp only
        have hsz : sizeGT f.size settings.maxFileSize = false := by
          have := hnov k (List.mem_cons_self k ks)
          rwa [oversizedAt, hlk] at this
        rw [if_neg (by rw [hsz]; exact Bool.false_ne_true)]
        obtain ⟨ts, hts⟩ := ih ops (fun k' hk' => hwf k' (List.mem_cons_of_mem _ hk'))
          (fun k' hk' => hnov k' (List.mem_cons_of_mem _ hk'))
        rcases hout : (syncPhase files map0 settings ks ops).2.2 with ts2 | sc
        · exact ⟨_, rfl⟩
        · rw [hout] at hts
          exact SyncOutcome.noConfusion hts

/-- Helper: under the same conditions, every missing mapped key's null
grafts are emitted by the synchronous loop. -/
theorem syncPhase_missing_grafts (files : List (String × FormDataFile)) (map0 : JVal)
    (settings : Settings) :
    ∀ (keys : List String) (ops : JVal),
      (∀ k ∈ keys, (pathsAndThrow (getField map0 k)).2 = false) →
      (∀ k ∈ keys, oversizedAt files settings k = false) →
      ∀ k ∈ keys, lookupFile files k = none →
        ∀ p ∈ pathsOf map0 k,
          Event.graftNull k p ∈ (syncPhase files map0 settings keys ops).1 := by
  intro keys
  induction keys with
  | nil => intro ops _ _ k hk; exact absurd hk (List.not_mem_nil k)
  | cons k' ks ih =>
      intro ops hwf hnov k hk hnone p hp
      show Event.graftNull k p ∈ (syncPhase files map0 settings (k' :: ks) ops).1
      unfold syncPhase
      rcases hlk : lookupFile files k' with _ | f
      · dsimp only
        rw [if_neg (by rw [hwf k' (List.mem_cons_self k' ks)]; exact Bool.false_ne_true)]
        dsimp only
        rcases List.mem_cons.mp hk with hke | hkm
        · subst hke
          refine List.mem_append_left _ ?_
          exact List.mem_map.mpr ⟨p, hp, rfl⟩
        · refine List.mem_append_right _ ?_
          exact ih _ (fun a ha => hwf a (List.mem_cons_of_mem _ ha))
            (fun a ha => hnov a (List.mem_cons_of_mem _ ha)) k hkm hnone p hp
      · dsimp only
        have hsz : sizeGT f.size settings.maxFileSize = false := by
          have := hnov k' (List.mem_cons_self k' ks)
          rwa [oversizedAt, hlk] at this
        rw [if_neg (by rw [hsz]; exact Bool.false_ne_true)]
        have hkm : k ∈ ks := by
          rcases List.mem_cons.mp hk with hke | hkm
          · subst hke
            rw [hlk] at hnone
            exact Option.noConfusion hnone
          · exact hkm
        have hmem := ih ops (fun a ha => hwf a (List.mem_cons_of_mem _ ha))
          (fun a ha => hnov a (List.mem_cons_of_mem _ ha)) k hkm hnone p hp
        rcases hout : (syncPhase files map0 settings ks ops).2.2 with ts | sc
        · dsimp only
          exact hmem
        · dsimp only
          exact hmem

/-- Helper: once the synchronous loop completes, the settlement phase always
reaches the engine invocation. -/
theorem settlePhase_engine (allowed : List String) (sniff : Sniffer) (istext : TextHeuristic) :
    ∀ (ts : List (String × FormDataFile × JVal)) (ops : JVal),
      Event.engineExec ∈ (settlePhase allowed sniff istext ts ops false).1 := by
  intro ts
  induction ts with
  | nil => intro ops; exact List.mem_singleton.mpr rfl
  | cons t ts' ih =>
      intro ops
      show Event.engineExec ∈ (settlePhase allowed sniff istext (t :: ts') ops false).1
      unfold settlePhase
      by_cases hf : ((runBlock allowed sniff istext ops t).2.2 && !false) = true
      · rw [if_pos hf]
        dsimp only
        refine List.mem_append_right _ ?_
        exact List.mem_cons_self _ _
      · rw [if_neg hf]
        dsimp only
        exact List.mem_append_right _ (ih _)

/-- C7.  Whenever the request's fields are present, both parse to accepted
values, every map entry is a well-formed path array, and some mapped key
names a present file strictly larger than `maxFileSize`, `uploadProcess`
returns the 413 oversized response — whose body is
`{errors:[{message}]}` mentioning the maximum allowed size it carries — and
the engine's `executeOperation` is never invoked. -/
theorem oversized_shortcircuits_413 (files : List (String × FormDataFile))
    (mapField opsField : Option String) (jsonParse : String → Except String JVal)
    (sniff : Sniffer) (istext : TextHeuristic) (settings : Settings) (order : List String)
    (map0 ops0 : JVal)
    (hmf : mapField.getD "" ≠ "") (hof : opsField.getD "" ≠ "")
    (hm : sanitizeAndValidateJSON (jsonParse (mapField.getD "")) = .ok map0)
    (ho : sanitizeAndValidateJSON (jsonParse (opsField.getD "")) = .ok ops0)
    (hwf : WellFormedMap map0)
    (hover : ∃ k ∈ keysOf map0, oversizedAt files settings k = true) :
    (∃ name,
      (uploadProcess files mapField opsField jsonParse sniff istext settings order).response
        = .oversized name settings.maxFileSize
      ∧ statusOf (uploadProcess files mapField opsField jsonParse sniff istext settings order).response
        = 413)
    ∧ Event.engineExec ∉ (uploadProcess files mapField opsField jsonParse sniff istext settings order).events := by
  unfold uploadProcess
  rw [if_neg (fun hc => hc.elim hmf hof), hm, ho]
  dsimp only
  obtain ⟨name, hsc⟩ := syncPhase_oversized files map0 settings (keysOf map0)
    (if truthy (getField ops0 "variables") then ops0
     else setField ops0 "variables" (.jcontainer false .nil)) hwf hover
  have hnull := syncPhase_events_graftNull files map0 settings (keysOf map0)
    (if truthy (getField ops0 "variables") then ops0
     else setField ops0 "variables" (.jcontainer false .nil))
  rcases hout : (syncPhase files map0 settings (keysOf map0)
      (if truthy (getField ops0 "variables") then ops0
       else setField ops0 "variables" (.jcontainer false .nil))).2.2 with ts | resp
  · rw [hout] at hsc
    exact absurd hsc (fun h => SyncOutcome.noConfusion h)
  · rw [hout] at hsc
    cases SyncOutcome.shortCircuit.inj hsc
    dsimp only
    exact ⟨⟨name, rfl, rfl⟩, noEngine_of_allNull _ hnull⟩

/-- C7 witness: two mapped files against a 3-byte limit; the 4-byte file
triggers the 413 short-circuit with no engine invocation. -/
theorem oversized_shortcircuits_413_witness :
    (∃ name,
      (uploadProcess [("a", fKeyA), ("b", fKeyB)] (some "MAP") (some "OPS") parseTwo snfNone
          istThrow settingsTiny []).response
        = .oversized name settingsTiny.maxFileSize
      ∧ statusOf (uploadProcess [("a", fKeyA), ("b", fKeyB)] (some "MAP") (some "OPS") parseTwo
          snfNone istThrow settingsTiny []).response = 413)
    ∧ Event.engineExec ∉ (uploadProcess [("a", fKeyA), ("b", fKeyB)] (some "MAP") (some "OPS")
        parseTwo snfNone istThrow settingsTiny []).events :=
  oversized_shortcircuits_413 [("a", fKeyA), ("b", fKeyB)] (some "MAP") (some "OPS") parseTwo
    snfNone istThrow settingsTiny [] mapTwoVal opsTwoVal
    (by decide) (by decide) rfl rfl (by decide) (by decide)

/-- C8.  Whenever the request's fields are present and parse to accepted
values, every map entry is a well-formed path array, and no mapped file is
oversized, `uploadProcess` grafts `null` into every variable path of every
map key with no matching file part, continues through the remaining keys,
and the request still reaches the engine's `executeOperation`. -/
theorem missing_file_grafts_null_and_proceeds (files : List (String × FormDataFile))
    (mapField opsField : Option String) (jsonParse : String → Except String JVal)
    (sniff : Sniffer) (istext : TextHeuristic) (settings : Settings) (order : List String)
    (map0 ops0 : JVal)
    (hmf : mapField.getD "" ≠ "") (hof : opsField.getD "" ≠ "")
    (hm : sanitizeAndValidateJSON (jsonParse (mapField.getD "")) = .ok map0)
    (ho : sanitizeAndValidateJSON (jsonParse (opsField.getD "")) = .ok ops0)
    (hwf : WellFormedMap map0)
    (hnov : ∀ k ∈ keysOf map0, oversizedAt files settings k = false) :
    Event.engineExec ∈ (uploadProcess files mapField opsField jsonParse sniff istext settings order).events
    ∧ ∀ k ∈ keysOf map0, lookupFile files k = none →
        ∀ p ∈ pathsOf map0 k,
          Event.graftNull k p
            ∈ (uploadProcess files mapField opsField jsonParse sniff istext settings order).events := by
  unfold uploadProcess
  rw [if_neg (fun hc => hc.elim hmf hof), hm, ho]
  dsimp only
  obtain ⟨ts, hts⟩ := syncPhase_proceeds files map0 settings (keysOf map0)
    (if truthy (getField ops0 "variables") then ops0
     else setField ops0 "variables" (.jcontainer false .nil)) hwf hnov
  have hmiss := syncPhase_missing_grafts files map0 settings (keysOf map0)
    (if truthy (getField ops0 "variables") then ops0
     else setField ops0 "variables" (.jcontainer false .nil)) hwf hnov
  rcases hout : (syncPhase files map0 settings (keysOf map0)
      (if truthy (getField ops0 "variables") then ops0
       else setField ops0 "variables" (.jcontainer false .nil))).2.2 with ts2 | resp
  · dsimp only
    constructor
    · exact List.mem_append_right _ (settlePhase_engine _ _ _ _ _)
    · intro k hk hnone p hp
      exact List.mem_append_left _ (hmiss k hk hnone p hp)
  · rw [hout] at hts
    exact absurd hts (fun h => SyncOutcome.noConfusion h)

/-- C8 witness: map keys `a` and `b` with only `b`'s file present; `a`'s
path receives a null graft and the engine still executes. -/
theorem missing_file_grafts_null_and_proceeds_witness :
    Event.engineExec ∈ (uploadProcess [("b", fKeyB)] (some "MAP") (some "OPS") parseTwo snfNone
        istThrow settingsTP ["b"]).events
    ∧ ∀ k ∈ keysOf mapTwoVal, lookupFile [("b", fKeyB)] k = none →
        ∀ p ∈ pathsOf mapTwoVal k,
          Event.graftNull k p
            ∈ (uploadProcess [("b", fKeyB)] (some "MAP") (some "OPS") parseTwo snfNone
                istThrow settingsTP ["b"]).events :=
  missing_file_grafts_null_and_proceeds [("b", fKeyB)] (some "MAP") (some "OPS") parseTwo
    snfNone istThrow settingsTP ["b"] mapTwoVal opsTwoVal
    (by decide) (by decide) rfl rfl (by decide) (by decide)

end GQLUpload
